import Mathlib

/-!
libcedilla: verification of the control-flow headers.

Embedding of `cedilla/yield.h`, `cedilla/controlflow.h`, `cedilla/synchronized.h`
and `cedilla/twovalue.h`.

The headers consist of preprocessor definitions only, so the embedding has two
layers:

* a token layer (`Tok`, `substitute`, `COUNTER`) that performs the argument
  substitution of the function-like definitions and the numbering done by
  `__COUNTER__`;
* a statement layer (`Stmt`, `exec`) that gives the C meaning of the expanded
  text: `switch` dispatching to a `case` label nested inside loops and
  conditionals, `break`, and the GNU `cleanup` attribute.
-/

namespace Cedilla

/-! ## Token layer -/

/-- Preprocessing tokens: identifiers, integer constants, punctuators. -/
inductive Tok
  | id (s : String)
  | num (n : Nat)
  | sym (s : String)
  deriving DecidableEq, Repr

/-- Argument substitution for a one-parameter function-like definition: every
identifier token of the replacement list spelled like the parameter is replaced
by the already expanded argument (C11 6.10.3.1). -/
def substitute (param : String) (arg : List Tok) : List Tok → List Tok
  | [] => []
  | Tok.id s :: rest =>
    if s = param then arg ++ substitute param arg rest
    else Tok.id s :: substitute param arg rest
  | Tok.num n :: rest => Tok.num n :: substitute param arg rest
  | Tok.sym s :: rest => Tok.sym s :: substitute param arg rest

/-- The predefined `__COUNTER__`: expands to the current count, then
increments it. -/
def COUNTER (c : Nat) : List Tok × Nat := ([Tok.num c], c + 1)

/-- Replacement list of `__yield_generate(counter)` (yield.h, lines 4-5):
`if (stack->counter = counter, 0) { case counter:; } else return`. -/
def yield_generate_body : List Tok :=
  [Tok.id "if", Tok.sym "(", Tok.id "stack", Tok.sym "->", Tok.id "counter",
   Tok.sym "=", Tok.id "counter", Tok.sym ",", Tok.num 0, Tok.sym ")",
   Tok.sym "\x7b", Tok.id "case", Tok.id "counter", Tok.sym ":", Tok.sym ";",
   Tok.sym "\x7d", Tok.id "else", Tok.id "return"]

/-- Expansion of `__yield_generate(counter)` for an expanded argument. -/
def yield_generate (counter : List Tok) : List Tok :=
  substitute "counter" counter yield_generate_body

/-- Expansion of `yield` (yield.h, line 6) when `__COUNTER__` stands at `c`:
the argument `__COUNTER__` is expanded first, then substituted. -/
def yield (c : Nat) : List Tok × Nat :=
  ((yield_generate (COUNTER c).1), (COUNTER c).2)

/-- Expansion of `generate` (yield.h, line 8) when `__COUNTER__` stands at `c`:
`switch (__COUNTER__, stack->counter) case 0:`. `generate` is object-like, so
no parameter substitution takes place in it. -/
def generate (c : Nat) : List Tok × Nat :=
  ([Tok.id "switch", Tok.sym "("] ++ (COUNTER c).1 ++
   [Tok.sym ",", Tok.id "stack", Tok.sym "->", Tok.id "counter", Tok.sym ")",
    Tok.id "case", Tok.num 0, Tok.sym ":"], (COUNTER c).2)

/-- The constants that follow a `case` keyword in a token list. -/
def caseLabels : List Tok → List Nat
  | [] => []
  | [_] => []
  | t :: u :: rest =>
    match t, u with
    | Tok.id s, Tok.num n =>
      if s = "case" then n :: caseLabels (u :: rest) else caseLabels (u :: rest)
    | _, _ => caseLabels (u :: rest)

/-- C grammar of member access: the token after `->` must be an identifier. -/
def memberAccessOk : List Tok → Bool
  | [] => true
  | [_] => true
  | t :: u :: rest =>
    match t, u with
    | Tok.sym _, Tok.id _ => memberAccessOk (u :: rest)
    | Tok.sym s, _ => if s = "->" then false else memberAccessOk (u :: rest)
    | _, _ => memberAccessOk (u :: rest)

/-- The constructs of the library that may occur in a translation unit, as far
as `__COUNTER__` is concerned. -/
inductive Use
  | generate
  | yield
  | defer
  | pthread_synchronized
  | pthread_try_synchronized
  | pthread_timed_synchronized
  | threads_synchronized
  | threads_try_synchronized
  | threads_timed_synchronized
  | counter
  | text (ts : List Tok)
  deriving DecidableEq, Repr

/-- Value of `__COUNTER__` after the expansion of one construct. `generate`
and `yield` evaluate it once (see `generate`, `yield`); `defer` is
`__defer_generate(__COUNTER__)` and each lock scope is
`__synchronized_generate(__COUNTER__, ...)`, whose argument is expanded once
before substitution; plain text does not touch it. -/
def Use.next (c : Nat) : Use → Nat
  | .generate => (Cedilla.generate c).2
  | .yield => (Cedilla.yield c).2
  | .defer => (COUNTER c).2
  | .pthread_synchronized => (COUNTER c).2
  | .pthread_try_synchronized => (COUNTER c).2
  | .pthread_timed_synchronized => (COUNTER c).2
  | .threads_synchronized => (COUNTER c).2
  | .threads_try_synchronized => (COUNTER c).2
  | .threads_timed_synchronized => (COUNTER c).2
  | .counter => (COUNTER c).2
  | .text _ => c

/-- Value of `__COUNTER__` after a sequence of constructs. -/
def counterAfter (c : Nat) : List Use → Nat
  | [] => c
  | u :: rest => counterAfter (u.next c) rest

/-- The `case` constants produced by the `yield`s of a sequence of constructs
expanded from counter value `c`, in textual order. -/
def markerIds (c : Nat) : List Use → List Nat
  | [] => []
  | Use.yield :: rest => caseLabels (Cedilla.yield c).1 ++ markerIds (Use.yield.next c) rest
  | u :: rest => markerIds (u.next c) rest

/-- The marker identifiers of a resumable routine: the translation unit is
`pre`, then the routine's `generate`, then `body` (the routine's markers,
possibly interleaved with other constructs); `c0` is the counter value at the
start of the translation unit. -/
def routineMarkers (c0 : Nat) (pre body : List Use) : List Nat :=
  markerIds (counterAfter c0 (pre ++ [Use.generate])) body

/-! ## Statement layer -/

/-- A lock (a mutex object of the host) is named by a number. -/
abbrev Lock := Nat

/-- The lock argument of a scope. It is an expression of the program, for
example `&node[cur].lock`, and the header substitutes its text both into the
acquisition test and into the cleanup function; each occurrence is evaluated
when control reaches it, on the user data of that moment. -/
abbrev LockExpr (υ : Type) := υ → Lock

/-- Who holds a lock: nobody, the running thread, or another owner. -/
inductive Holder
  | nobody
  | caller
  | other
  deriving DecidableEq, Repr

/-- The functions called by the expansions of synchronized.h, under the names
the header spells (line 111 spells `mtx_timedock`), together with
`mtx_timedlock`, the timed acquisition function that `<threads.h>` declares. -/
inductive Prim
  | pthread_mutex_lock
  | pthread_mutex_trylock
  | pthread_mutex_timedlock
  | pthread_mutex_unlock
  | mtx_lock
  | mtx_trylock
  | mtx_timedock
  | mtx_timedlock
  | mtx_unlock
  deriving DecidableEq, Repr

/-- The functions declared by the host headers `<pthread.h>` and `<threads.h>`
that synchronized.h includes. -/
def Prim.declared : Prim → Bool
  | .mtx_timedock => false
  | _ => true

/-- The functions the header calls to give a lock back. -/
def Prim.releases : Prim → Bool
  | .pthread_mutex_unlock => true
  | .mtx_unlock => true
  | _ => false

/-- What an observer sees: calls of host functions (function, lock, timeout
argument if any, returned value) and runs of user blocks (named by a tag). -/
inductive Event
  | call (p : Prim) (l : Lock) (time : Option Nat) (result : Int)
  | ran (tag : Nat)
  deriving DecidableEq, Repr

/-- How a statement ends: by reaching its end, by `break`, by `continue`, or by
`return` (with the returned value). -/
inductive Outcome
  | normal
  | brk
  | cont
  | ret (v : Int)
  deriving DecidableEq, Repr

/-- Result of running a statement while looking for a `case` label: either the
label does not occur in it (`missed`, nothing was executed), or execution
started at the label and ended with an outcome. -/
inductive Status
  | missed
  | fin (o : Outcome)
  deriving DecidableEq, Repr

/-- Program state: who holds each lock, the observable log, user data. -/
structure World (υ : Type) where
  held : Lock → Holder
  log : List Event
  user : υ

/-- The host threading runtime, about which the header assumes nothing: the
value of `thrd_success` and, for every call, the value it returns and who holds
each lock afterwards (any functions of the current state). In particular a
call may return an error and still take the lock, as `pthread_mutex_lock` and
`pthread_mutex_trylock` do with `EOWNERDEAD` on a robust mutex. -/
structure Host (υ : Type) where
  thrd_success : Int
  result : Prim → Lock → Option Nat → World υ → Int
  heldAfter : Prim → Lock → Option Nat → World υ → Lock → Holder

/-- The value by which a host function reports success: `0` for the
`pthread_mutex_*` family, `thrd_success` for the `mtx_*` family. -/
def Host.success {υ : Type} (h : Host υ) : Prim → Int
  | .pthread_mutex_lock => 0
  | .pthread_mutex_trylock => 0
  | .pthread_mutex_timedlock => 0
  | .pthread_mutex_unlock => 0
  | _ => h.thrd_success

/-- One call of a host function: the call is logged with its result, and the
locks are held as the host says. -/
def Host.call {υ : Type} (h : Host υ) (p : Prim) (l : Lock) (t : Option Nat)
    (w : World υ) : World υ × Int :=
  ({ w with held := h.heldAfter p l t w,
            log := w.log ++ [Event.call p l t (h.result p l t w)] },
   h.result p l t w)

/-- Expressions occurring in the expansions. The lock argument of a call is an
expression; the timeout argument occurs once in each expansion and is given by
its value. -/
inductive Expr (υ : Type)
  | lit (n : Int)
  | thrd_success
  | call (p : Prim) (lock : LockExpr υ) (time : Option Nat)
  | eq (a b : Expr υ)
  | builtin_expect (e : Expr υ) (c : Int)

/-- Evaluation of an expression, left to right, with its side effects; the
lock argument of a call is evaluated on the current user data. -/
def Expr.eval {υ : Type} (h : Host υ) : Expr υ → World υ → World υ × Int
  | .lit n, w => (w, n)
  | .thrd_success, w => (w, h.thrd_success)
  | .call p lock t, w => h.call p (lock w.user) t w
  | .eq a b, w =>
    let ra := a.eval h w
    let rb := b.eval h ra.1
    (rb.1, if ra.2 = rb.2 then 1 else 0)
  | .builtin_expect e _, w => e.eval h w

/-- Statements of the expanded text.

* `user tag f` is a block of user code: it transforms the user data and ends
  with any outcome; no label of the library lies inside it.
* `cleanup counter fn rest` is the declaration
  `__attribute__((cleanup(f_counter))) char v_counter;` followed by the rest of
  the variable's scope, where `fn` is the body of `f_counter`. -/
inductive Stmt (υ : Type)
  | skip
  | expr (e : Expr υ)
  | user (tag : Nat) (f : υ → υ × Outcome)
  | brk
  | seq (a b : Stmt υ)
  | block (s : Stmt υ)
  | ifElse (c : Expr υ) (t e : Stmt υ)
  | switchOn (c : Expr υ) (body : Stmt υ)
  | caseLabel (n : Int) (s : Stmt υ)
  | whileLoop (c : Expr υ) (body : Stmt υ)
  | cleanup (counter : Nat) (fn : Stmt υ) (rest : Stmt υ)

/-- Execution with fuel. `seek = some v` means a `switch` on value `v` is
looking for `case v:` inside the statement; nothing is executed until the label
is found, and from the label on execution is ordinary. A nested `switch` hides
its labels from an outer one. A `switch` without matching label skips its body.
Leaving the scope of a `cleanup` variable on any path, also when the scope was
entered by a jump past the declaration, calls the cleanup function; what that
function returns is discarded. -/
def exec {υ : Type} (h : Host υ) : Nat → Option Int → Stmt υ → World υ →
    Option (World υ × Status)
  | 0, _, _, _ => none
  | fuel + 1, seek, s, w =>
    match s with
    | .skip =>
      match seek with
      | some _ => some (w, .missed)
      | none => some (w, .fin .normal)
    | .expr e =>
      match seek with
      | some _ => some (w, .missed)
      | none => some ((e.eval h w).1, .fin .normal)
    | .user tag f =>
      match seek with
      | some _ => some (w, .missed)
      | none =>
        some ({ w with user := (f w.user).1, log := w.log ++ [Event.ran tag] },
              .fin (f w.user).2)
    | .brk =>
      match seek with
      | some _ => some (w, .missed)
      | none => some (w, .fin .brk)
    | .seq a b =>
      match exec h fuel seek a w with
      | none => none
      | some (w1, .missed) => exec h fuel seek b w1
      | some (w1, .fin .normal) => exec h fuel none b w1
      | some (w1, .fin o) => some (w1, .fin o)
    | .block s => exec h fuel seek s w
    | .ifElse c t e =>
      match seek with
      | none =>
        if (c.eval h w).2 ≠ 0 then exec h fuel none t (c.eval h w).1
        else exec h fuel none e (c.eval h w).1
      | some v =>
        match exec h fuel (some v) t w with
        | none => none
        | some (w1, .missed) => exec h fuel (some v) e w1
        | some (w1, .fin o) => some (w1, .fin o)
    | .switchOn c body =>
      match seek with
      | some _ => some (w, .missed)
      | none =>
        match exec h fuel (some (c.eval h w).2) body (c.eval h w).1 with
        | none => none
        | some (w1, .missed) => some (w1, .fin .normal)
        | some (w1, .fin .brk) => some (w1, .fin .normal)
        | some (w1, .fin o) => some (w1, .fin o)
    | .caseLabel n s =>
      match seek with
      | none => exec h fuel none s w
      | some v => if v = n then exec h fuel none s w else exec h fuel (some v) s w
    | .whileLoop c body =>
      match seek with
      | none =>
        if (c.eval h w).2 = 0 then some ((c.eval h w).1, .fin .normal)
        else
          match exec h fuel none body (c.eval h w).1 with
          | none => none
          | some (w1, .missed) => some (w1, .missed)
          | some (w1, .fin .brk) => some (w1, .fin .normal)
          | some (w1, .fin (.ret r)) => some (w1, .fin (.ret r))
          | some (w1, .fin _) => exec h fuel none (.whileLoop c body) w1
      | some v =>
        match exec h fuel (some v) body w with
        | none => none
        | some (w1, .missed) => some (w1, .missed)
        | some (w1, .fin .brk) => some (w1, .fin .normal)
        | some (w1, .fin (.ret r)) => some (w1, .fin (.ret r))
        | some (w1, .fin _) => exec h fuel none (.whileLoop c body) w1
    | .cleanup _ fn rest =>
      match exec h fuel seek rest w with
      | none => none
      | some (w1, .missed) => some (w1, .missed)
      | some (w1, .fin o) =>
        match exec h fuel none fn w1 with
        | none => none
        | some (w2, _) => some (w2, .fin o)

/-- The world after a user block has run: its effect on the user data, and its
entry in the log. -/
def afterBlock {υ : Type} (w : World υ) (tag : Nat) (f : υ → υ × Outcome) : World υ :=
  { w with user := (f w.user).1, log := w.log ++ [Event.ran tag] }

/-! ## synchronized.h -/

/-- The text `__synchronized_generate(counter, expr, end) body else els`
(synchronized.h, lines 16-20):

    void __synchronized_func_N (void *) { end; };
    if (__builtin_expect(expr, 1)) switch (1)
      for (__attribute__((unused, cleanup(__synchronized_func_N)))
           char __synchronized_var_N; 0;) case 1: body
    else els

The `for` has no step expression, so it is the declaration followed by a
`while` on the condition `0`. A scope written without `else` has `els = skip`.
In the six scopes below the text of the lock argument occurs in `expr` and
again in `end`, so the same lock expression is passed to both calls and
evaluated at each. -/
def synchronized_generate {υ : Type} (counter : Nat) (expr end_ : Expr υ)
    (body els : Stmt υ) : Stmt υ :=
  .seq .skip
    (.ifElse (.builtin_expect expr 1)
      (.switchOn (.lit 1)
        (.cleanup counter (.expr end_) (.whileLoop (.lit 0) (.caseLabel 1 body))))
      els)

/-- Line 34: `pthread_synchronized(lock)`. -/
def pthread_synchronized {υ : Type} (counter : Nat) (lock : LockExpr υ) (body els : Stmt υ) : Stmt υ :=
  synchronized_generate counter (.eq (.call .pthread_mutex_lock lock none) (.lit 0))
    (.call .pthread_mutex_unlock lock none) body els

/-- Line 49: `pthread_try_synchronized(lock)`. -/
def pthread_try_synchronized {υ : Type} (counter : Nat) (lock : LockExpr υ) (body els : Stmt υ) :
    Stmt υ :=
  synchronized_generate counter (.eq (.call .pthread_mutex_trylock lock none) (.lit 0))
    (.call .pthread_mutex_unlock lock none) body els

/-- Line 65: `pthread_timed_synchronized(lock, time)`. -/
def pthread_timed_synchronized {υ : Type} (counter : Nat) (lock : LockExpr υ) (time : Nat)
    (body els : Stmt υ) : Stmt υ :=
  synchronized_generate counter (.eq (.call .pthread_mutex_timedlock lock (some time)) (.lit 0))
    (.call .pthread_mutex_unlock lock none) body els

/-- Line 79: `threads_synchronized(lock)`. -/
def threads_synchronized {υ : Type} (counter : Nat) (lock : LockExpr υ) (body els : Stmt υ) : Stmt υ :=
  synchronized_generate counter (.eq (.call .mtx_lock lock none) .thrd_success)
    (.call .mtx_unlock lock none) body els

/-- Line 94: `threads_try_synchronized(lock)`. -/
def threads_try_synchronized {υ : Type} (counter : Nat) (lock : LockExpr υ) (body els : Stmt υ) :
    Stmt υ :=
  synchronized_generate counter (.eq (.call .mtx_trylock lock none) .thrd_success)
    (.call .mtx_unlock lock none) body els

/-- Line 110: `threads_timed_synchronized(lock, time)`; the header calls
`mtx_timedock`. -/
def threads_timed_synchronized {υ : Type} (counter : Nat) (lock : LockExpr υ) (time : Nat)
    (body els : Stmt υ) : Stmt υ :=
  synchronized_generate counter (.eq (.call .mtx_timedock lock (some time)) .thrd_success)
    (.call .mtx_unlock lock none) body els

/-- Lines 113-121: `synchronized`, selected by `CEDILLA_SYNCHRONIZED_USE_PTHREAD`. -/
def synchronized {υ : Type} (CEDILLA_SYNCHRONIZED_USE_PTHREAD : Bool) (counter : Nat)
    (lock : LockExpr υ) (body els : Stmt υ) : Stmt υ :=
  if CEDILLA_SYNCHRONIZED_USE_PTHREAD then pthread_synchronized counter lock body els
  else threads_synchronized counter lock body els

/-- Lines 113-121: `try_synchronized`. -/
def try_synchronized {υ : Type} (CEDILLA_SYNCHRONIZED_USE_PTHREAD : Bool) (counter : Nat)
    (lock : LockExpr υ) (body els : Stmt υ) : Stmt υ :=
  if CEDILLA_SYNCHRONIZED_USE_PTHREAD then pthread_try_synchronized counter lock body els
  else threads_try_synchronized counter lock body els

/-- Lines 113-121: `timed_synchronized`. -/
def timed_synchronized {υ : Type} (CEDILLA_SYNCHRONIZED_USE_PTHREAD : Bool) (counter : Nat)
    (lock : LockExpr υ) (time : Nat) (body els : Stmt υ) : Stmt υ :=
  if CEDILLA_SYNCHRONIZED_USE_PTHREAD then pthread_timed_synchronized counter lock time body els
  else threads_timed_synchronized counter lock time body els

/-- The acquisition policies of the specification. -/
inductive Policy
  | blocking
  | tryOnce
  | timed (time : Nat)
  deriving DecidableEq, Repr

/-- The specification's `withLock(lock, policy, body, elseBody)`, realised by
the three scopes of the selected back end. -/
def withLock {υ : Type} (usePthread : Bool) (pol : Policy) (counter : Nat) (lock : LockExpr υ)
    (body els : Stmt υ) : Stmt υ :=
  match pol with
  | .blocking => synchronized usePthread counter lock body els
  | .tryOnce => try_synchronized usePthread counter lock body els
  | .timed t => timed_synchronized usePthread counter lock t body els

/-- The acquisition function a scope calls, read off the six definitions. -/
def acquireFn (usePthread : Bool) : Policy → Prim
  | .blocking => if usePthread then .pthread_mutex_lock else .mtx_lock
  | .tryOnce => if usePthread then .pthread_mutex_trylock else .mtx_trylock
  | .timed _ => if usePthread then .pthread_mutex_timedlock else .mtx_timedock

/-- The release function a scope names in its cleanup function. -/
def releaseFn (usePthread : Bool) : Prim :=
  if usePthread then .pthread_mutex_unlock else .mtx_unlock

/-- The timeout argument passed to the acquisition function. -/
def Policy.time : Policy → Option Nat
  | .timed t => some t
  | _ => none

/-- How the outcome of the body leaves a lock scope: `break` and `continue`
end the scope's own `for`, `return` leaves the enclosing function. -/
def scopeExit : Outcome → Outcome
  | .ret v => .ret v
  | _ => .normal

/-! ## controlflow.h: `run` / `after` -/

/-- The text `run A after B` (controlflow.h, lines 58 and 60):
`switch (1) while (1) if (1) { A ; break;} else case 1: B`. -/
def run_after {υ : Type} (A B : Stmt υ) : Stmt υ :=
  .switchOn (.lit 1)
    (.whileLoop (.lit 1)
      (.ifElse (.lit 1) (.block (.seq A (.seq .skip .brk))) (.caseLabel 1 B)))

/-! ## controlflow.h: `defer` -/

/-- The text `__defer_generate(counter) body` (controlflow.h, lines 198-202)
followed by the rest of the enclosing block:

    auto void __defer_func_N (void *);
    __attribute__((unused, cleanup(__defer_func_N))) char __defer_var_N;
    void __defer_func_N (void *) body
    rest -/
def defer_generate {υ : Type} (counter : Nat) (body rest : Stmt υ) : Stmt υ :=
  .cleanup counter body rest

/-- Line 215: `defer` is `__defer_generate(__COUNTER__)`. -/
def defer {υ : Type} (counter : Nat) (body rest : Stmt υ) : Stmt υ :=
  defer_generate counter body rest

/-- What may stand in a region that registers guards: a `defer` whose action is
a user block, the opening of a nested block (which extends to the end of the
region), or a user statement. -/
inductive Item (υ : Type)
  | defer (counter : Nat) (tag : Nat) (g : υ → υ × Outcome)
  | openBlock
  | stmt (tag : Nat) (f : υ → υ × Outcome)

/-- The statement a sequence of items stands for. -/
def region {υ : Type} : List (Item υ) → Stmt υ
  | [] => .skip
  | .defer c tag g :: rest => defer c (.user tag g) (region rest)
  | .openBlock :: rest => .block (region rest)
  | .stmt tag f :: rest => .seq (.user tag f) (region rest)

/-- Tags of the user statements that run before control leaves the region:
all of them up to and including the first that does not complete normally. -/
def ranTags {υ : Type} : List (Item υ) → υ → List Nat
  | [], _ => []
  | .defer _ _ _ :: rest, u => ranTags rest u
  | .openBlock :: rest, u => ranTags rest u
  | .stmt tag f :: rest, u =>
    tag :: (if (f u).2 = .normal then ranTags rest (f u).1 else [])

/-- Tags of the actions registered before control leaves the region, in order
of registration. -/
def registered {υ : Type} : List (Item υ) → υ → List Nat
  | [], _ => []
  | .defer _ tag _ :: rest, u => tag :: registered rest u
  | .openBlock :: rest, u => registered rest u
  | .stmt _ f :: rest, u => if (f u).2 = .normal then registered rest (f u).1 else []

/-- The way control leaves the region: by the first user statement that does
not complete normally, or by reaching the end. -/
def exitOutcome {υ : Type} : List (Item υ) → υ → Outcome
  | [], _ => .normal
  | .defer _ _ _ :: rest, u => exitOutcome rest u
  | .openBlock :: rest, u => exitOutcome rest u
  | .stmt _ f :: rest, u => if (f u).2 = .normal then exitOutcome rest (f u).1 else (f u).2

/-! ## twovalue.h -/

/-- Position of the leading binary digit of a positive number below `2^128`. -/
def leadingBit (a : Nat) : Nat :=
  ((List.range 128).filter (fun e => decide (2 ^ e ≤ a))).length - 1

/-- Value of the conversion of an integer to `float` (IEEE 754 binary32, 24
significant bits, round to nearest, ties to even), for magnitudes below
`2^127`. -/
def toFloat (n : Int) : Int :=
  if n.natAbs < 2 ^ 24 then n
  else
    let ulp := 2 ^ (leadingBit n.natAbs - 23)
    let q := n.natAbs / ulp
    let r := n.natAbs % ulp
    let q1 := if ulp < 2 * r ∨ (2 * r = ulp ∧ q % 2 = 1) then q + 1 else q
    Int.sign n * ((q1 * ulp : Nat) : Int)

/-- A `float _Complex` value whose parts are integers. -/
structure ComplexFloat where
  re : Int
  im : Int
  deriving DecidableEq, Repr

/-- `_Complex_I` of `<complex.h>`: the `float _Complex` constant `0 + 1i`. -/
def Complex_I : ComplexFloat := ⟨0, 1⟩

/-- Product of a `float` and a `float _Complex`, each part rounded to `float`. -/
def ComplexFloat.scale (y : Int) (z : ComplexFloat) : ComplexFloat :=
  ⟨toFloat (y * z.re), toFloat (y * z.im)⟩

/-- Sum of a `float` and a `float _Complex`. -/
def ComplexFloat.addReal (x : Int) (z : ComplexFloat) : ComplexFloat :=
  ⟨toFloat (x + z.re), z.im⟩

/-- Line 23: `TWOVALUE(x, y)` is `(x + y * _Complex_I)`; with integer `x` and
`y` the usual arithmetic conversions turn both into `float` first. -/
def TWOVALUE (x y : Int) : ComplexFloat :=
  ComplexFloat.addReal (toFloat x) (ComplexFloat.scale (toFloat y) Complex_I)

/-- Conversion of a `float` with integer value to the signed integer type of
`bits` bits: the value when it is in range, undefined otherwise. -/
def toInteger (bits : Nat) (v : Int) : Option Int :=
  if -(2 ^ (bits - 1) : Int) ≤ v ∧ v < 2 ^ (bits - 1) then some v else none

/-- Lines 25-29: `twovalue_bind(expr, y)` with `twovalue_t` of `bits` bits per
part: the expression is converted to `twovalue_t`, the imaginary part is stored
through `y`, the real part is the value. The result is (value, stored). -/
def twovalue_bind (bits : Nat) (e : ComplexFloat) : Option (Int × Int) :=
  match toInteger bits e.re, toInteger bits e.im with
  | some r, some i => some (r, i)
  | _, _ => none

/-- Line 31: `twovalue_use(expr)` is `(__real__ (expr))`. -/
def twovalue_use (e : ComplexFloat) : Int := e.re

/-- The integers of the signed type of `bits` bits. -/
def representable (bits : Nat) (x : Int) : Prop :=
  -(2 ^ (bits - 1) : Int) ≤ x ∧ x < 2 ^ (bits - 1)

/-- The tokens standing immediately before an `=` token: the targets of the
assignments in a token list. -/
def assignTargets : List Tok → List Tok
  | [] => []
  | [_] => []
  | t :: u :: rest =>
    if u = Tok.sym "=" then t :: assignTargets (u :: rest) else assignTargets (u :: rest)

/-! ## Concrete hosts and blocks used for evaluation -/

/-- A host whose every call returns `r`, with `thrd_success = 0`: a release
frees the lock, any other call gives the lock to the caller when `r = 0` and
leaves the locks as they are otherwise. -/
def constHost (υ : Type) (r : Int) : Host υ :=
  { thrd_success := 0
    result := fun _ _ _ _ => r
    heldAfter := fun p l _ w =>
      if p.releases then Function.update w.held l .nobody
      else if r = 0 then Function.update w.held l .caller
      else w.held }

/-- A world with no lock held and an empty log. -/
def freshWorld {υ : Type} (u : υ) : World υ :=
  { held := fun _ => .nobody, log := [], user := u }

/-- The value of `EOWNERDEAD` on Linux. -/
def EOWNERDEAD : Int := 130

/-- A host on which every lock is a robust mutex whose owner died: an
acquisition call returns `EOWNERDEAD` and gives the lock to the caller; a
release returns `0` and frees the lock. -/
def ownerDeadHost (υ : Type) : Host υ :=
  { thrd_success := 0
    result := fun p _ _ _ => if p.releases then 0 else EOWNERDEAD
    heldAfter := fun p l _ w =>
      if p.releases then Function.update w.held l .nobody
      else Function.update w.held l .caller }

/-- A world in which every lock is still held by its dead owner. -/
def ownerDeadWorld {υ : Type} (u : υ) : World υ :=
  { held := fun _ => .other, log := [], user := u }

/-- A block `{ cur++; }` on an index `cur`. -/
def increment (cur : Nat) : Nat × Outcome := (cur + 1, .normal)

/-- A block that does nothing and completes normally. -/
def idle {υ : Type} (u : υ) : υ × Outcome := (u, .normal)

/-- A block that executes `return 5;`. -/
def returns5 {υ : Type} (u : υ) : υ × Outcome := (u, .ret 5)

/-- A block `{ if (n++ == 0) continue; }` on a counter `n`. -/
def continueFirst (n : Nat) : Nat × Outcome := (n + 1, if n = 0 then .cont else .normal)

/-- A block `printf(text);` on the text written so far. -/
def printf (text : String) (out : String) : String × Outcome := (out ++ text, .normal)

/-! ## Lemmas: token layer -/

theorem yield_tokens (c : Nat) :
    (yield c).1 =
      [Tok.id "if", Tok.sym "(", Tok.id "stack", Tok.sym "->", Tok.num c,
       Tok.sym "=", Tok.num c, Tok.sym ",", Tok.num 0, Tok.sym ")",
       Tok.sym "\x7b", Tok.id "case", Tok.num c, Tok.sym ":", Tok.sym ";",
       Tok.sym "\x7d", Tok.id "else", Tok.id "return"] := by
  simp [yield, yield_generate, yield_generate_body, substitute, COUNTER]

theorem caseLabels_yield (c : Nat) : caseLabels (yield c).1 = [c] := by
  simp [yield_tokens, caseLabels]

theorem Use.le_next (c : Nat) (u : Use) : c ≤ u.next c := by
  cases u <;> simp [Use.next, Cedilla.generate, Cedilla.yield, COUNTER]

theorem le_counterAfter (c : Nat) (us : List Use) : c ≤ counterAfter c us := by
  induction us generalizing c with
  | nil => simp [counterAfter]
  | cons u rest ih => exact le_trans (Use.le_next c u) (ih (u.next c))

theorem counterAfter_append (c : Nat) (us vs : List Use) :
    counterAfter c (us ++ vs) = counterAfter (counterAfter c us) vs := by
  induction us generalizing c with
  | nil => simp [counterAfter]
  | cons u rest ih => simp [counterAfter, ih]

theorem counterAfter_generate_pos (c0 : Nat) (pre : List Use) :
    0 < counterAfter c0 (pre ++ [Use.generate]) := by
  simp [counterAfter_append, counterAfter, Use.next, generate, COUNTER]

theorem markerIds_yield (c : Nat) (rest : List Use) :
    markerIds c (Use.yield :: rest) = c :: markerIds (c + 1) rest := by
  show caseLabels (yield c).1 ++ markerIds (Use.yield.next c) rest = _
  rw [caseLabels_yield]
  rfl

theorem markerIds_other (c : Nat) (u : Use) (rest : List Use) (hu : u ≠ Use.yield) :
    markerIds c (u :: rest) = markerIds (u.next c) rest := by
  cases u <;> simp_all [markerIds]

theorem markerIds_ge (c : Nat) (us : List Use) : ∀ i ∈ markerIds c us, c ≤ i := by
  induction us generalizing c with
  | nil => simp [markerIds]
  | cons u rest ih =>
    by_cases hu : u = Use.yield
    · subst hu
      intro i hi
      rw [markerIds_yield] at hi
      rcases List.mem_cons.mp hi with rfl | hi
      · exact le_rfl
      · exact le_trans (Nat.le_succ c) (ih (c + 1) i hi)
    · intro i hi
      rw [markerIds_other c u rest hu] at hi
      exact le_trans (Use.le_next c u) (ih (u.next c) i hi)

theorem markerIds_increasing (c : Nat) (us : List Use) :
    (markerIds c us).Pairwise (fun a b => a < b) := by
  induction us generalizing c with
  | nil => simp [markerIds]
  | cons u rest ih =>
    by_cases hu : u = Use.yield
    · subst hu
      rw [markerIds_yield]
      refine List.Pairwise.cons ?_ (ih (c + 1))
      intro i hi
      exact markerIds_ge (c + 1) rest i hi
    · rw [markerIds_other c u rest hu]
      exact ih (u.next c)

theorem markerIds_length (c : Nat) (us : List Use) :
    (markerIds c us).length = us.count Use.yield := by
  induction us generalizing c with
  | nil => simp [markerIds]
  | cons u rest ih =>
    by_cases hu : u = Use.yield
    · subst hu
      simp [markerIds_yield, ih]
    · rw [markerIds_other c u rest hu, ih, List.count_cons_of_ne (Ne.symm hu)]

/-! ## Lemmas: statement layer -/

theorem Host.call_user {υ : Type} (h : Host υ) (w : World υ) (p : Prim) (l : Lock)
    (t : Option Nat) : (h.call p l t w).1.user = w.user := rfl

theorem Host.call_log {υ : Type} (h : Host υ) (w : World υ) (p : Prim) (l : Lock)
    (t : Option Nat) :
    (h.call p l t w).1.log = w.log ++ [Event.call p l t (h.result p l t w)] := rfl

theorem Host.call_result {υ : Type} (h : Host υ) (w : World υ) (p : Prim) (l : Lock)
    (t : Option Nat) : (h.call p l t w).2 = h.result p l t w := rfl

theorem Host.call_held {υ : Type} (h : Host υ) (w : World υ) (p : Prim) (l : Lock)
    (t : Option Nat) : (h.call p l t w).1.held = h.heldAfter p l t w := rfl

theorem exec_synchronized_generate {υ : Type} (h : Host υ) (w : World υ) (counter : Nat)
    (p q : Prim) (lock : LockExpr υ) (t : Option Nat)
    (succ : Expr υ) (hs : succ = .lit 0 ∨ succ = .thrd_success)
    (bt : Nat) (f : υ → υ × Outcome) (els : Stmt υ) (fuel : Nat) :
    exec h (fuel + 7) none
      (synchronized_generate counter (.eq (.call p lock t) succ) (.call q lock none)
        (.user bt f) els) w =
    if h.result p (lock w.user) t w = (succ.eval h w).2 then
      some ((h.call q (lock (f w.user).1) none
              (afterBlock (h.call p (lock w.user) t w).1 bt f)).1,
            .fin (scopeExit (f w.user).2))
    else
      exec h (fuel + 5) none els (h.call p (lock w.user) t w).1 := by
  have key : ∀ v : Int,
      (succ.eval h (h.call p (lock w.user) t w).1) = ((h.call p (lock w.user) t w).1, v) →
      exec h (fuel + 7) none
      (synchronized_generate counter (.eq (.call p lock t) succ) (.call q lock none)
        (.user bt f) els) w =
    if h.result p (lock w.user) t w = v then
      some ((h.call q (lock (f w.user).1) none
              (afterBlock (h.call p (lock w.user) t w).1 bt f)).1,
            .fin (scopeExit (f w.user).2))
    else
      exec h (fuel + 5) none els (h.call p (lock w.user) t w).1 := by
    intro v hv
    have hseq : exec h (fuel + 7) none
        (synchronized_generate counter (.eq (.call p lock t) succ) (.call q lock none)
          (.user bt f) els) w =
        exec h (fuel + 6) none
          (.ifElse (.builtin_expect (.eq (.call p lock t) succ) 1)
            (.switchOn (.lit 1)
              (.cleanup counter (.expr (.call q lock none))
                (.whileLoop (.lit 0) (.caseLabel 1 (.user bt f)))))
            els) w := rfl
    rw [hseq]
    by_cases hr : h.result p (lock w.user) t w = v
    · have hc : (Expr.eval h (.builtin_expect (.eq (.call p lock t) succ) 1) w) =
          ((h.call p (lock w.user) t w).1, 1) := by
        simp [Expr.eval, hv, Host.call_result, hr]
      rw [if_pos hr]
      have hif : exec h (fuel + 6) none
          (.ifElse (.builtin_expect (.eq (.call p lock t) succ) 1)
            (.switchOn (.lit 1)
              (.cleanup counter (.expr (.call q lock none))
                (.whileLoop (.lit 0) (.caseLabel 1 (.user bt f)))))
            els) w =
          exec h (fuel + 5) none
            (.switchOn (.lit 1)
              (.cleanup counter (.expr (.call q lock none))
                (.whileLoop (.lit 0) (.caseLabel 1 (.user bt f)))))
            (h.call p (lock w.user) t w).1 := by
        show (if (Expr.eval h (.builtin_expect (.eq (.call p lock t) succ) 1) w).2 ≠ 0 then _
          else _) = _
        rw [hc]
        simp
      rw [hif]
      cases hf : (f w.user).2 <;>
        simp [exec, Expr.eval, Host.call_user, hf, scopeExit, afterBlock]
    · have hc : (Expr.eval h (.builtin_expect (.eq (.call p lock t) succ) 1) w) =
          ((h.call p (lock w.user) t w).1, 0) := by
        simp [Expr.eval, hv, Host.call_result, hr]
      rw [if_neg hr]
      show (if (Expr.eval h (.builtin_expect (.eq (.call p lock t) succ) 1) w).2 ≠ 0 then _
          else _) = _
      rw [hc]
      simp
  rcases hs with rfl | rfl
  · exact key 0 rfl
  · exact key h.thrd_success rfl

theorem exec_withLock {υ : Type} (h : Host υ) (w : World υ) (usePthread : Bool) (pol : Policy)
    (counter : Nat) (lock : LockExpr υ) (bt : Nat) (f : υ → υ × Outcome) (els : Stmt υ)
    (fuel : Nat) :
    exec h (fuel + 7) none (withLock usePthread pol counter lock (.user bt f) els) w =
    if h.result (acquireFn usePthread pol) (lock w.user) pol.time w =
        h.success (acquireFn usePthread pol) then
      some ((h.call (releaseFn usePthread) (lock (f w.user).1) none
              (afterBlock (h.call (acquireFn usePthread pol) (lock w.user) pol.time w).1 bt f)).1,
            .fin (scopeExit (f w.user).2))
    else
      exec h (fuel + 5) none els
        (h.call (acquireFn usePthread pol) (lock w.user) pol.time w).1 := by
  cases usePthread <;> cases pol <;>
    simp [withLock, synchronized, try_synchronized, timed_synchronized, pthread_synchronized,
      pthread_try_synchronized, pthread_timed_synchronized, threads_synchronized,
      threads_try_synchronized, threads_timed_synchronized, exec_synchronized_generate,
      acquireFn, releaseFn, Policy.time, Host.success, Expr.eval]

theorem exec_skip {υ : Type} (h : Host υ) (n : Nat) (w : World υ) :
    exec h (n + 1) none .skip w = some (w, .fin .normal) := rfl

theorem exec_user {υ : Type} (h : Host υ) (n : Nat) (tag : Nat) (f : υ → υ × Outcome)
    (w : World υ) :
    exec h (n + 1) none (.user tag f) w = some (afterBlock w tag f, .fin (f w.user).2) := rfl

theorem exec_withLock_user {υ : Type} (h : Host υ) (w : World υ) (usePthread : Bool)
    (pol : Policy) (counter : Nat) (lock : LockExpr υ) (bt et : Nat) (f g : υ → υ × Outcome)
    (fuel : Nat) :
    exec h (fuel + 7) none (withLock usePthread pol counter lock (.user bt f) (.user et g)) w =
    if h.result (acquireFn usePthread pol) (lock w.user) pol.time w =
        h.success (acquireFn usePthread pol) then
      some ((h.call (releaseFn usePthread) (lock (f w.user).1) none
              (afterBlock (h.call (acquireFn usePthread pol) (lock w.user) pol.time w).1 bt f)).1,
            .fin (scopeExit (f w.user).2))
    else
      some (afterBlock (h.call (acquireFn usePthread pol) (lock w.user) pol.time w).1 et g,
            .fin (g w.user).2) := by
  rw [exec_withLock]
  rfl

theorem exec_block {υ : Type} (h : Host υ) (n : Nat) (seek : Option Int) (s : Stmt υ)
    (w : World υ) : exec h (n + 1) seek (.block s) w = exec h n seek s w := rfl

theorem exec_cleanup_fin {υ : Type} (h : Host υ) (n c : Nat) (seek : Option Int)
    (fn rest : Stmt υ) (w w1 w2 : World υ) (o : Outcome) (st : Status)
    (hrest : exec h n seek rest w = some (w1, .fin o))
    (hfn : exec h n none fn w1 = some (w2, st)) :
    exec h (n + 1) seek (.cleanup c fn rest) w = some (w2, .fin o) := by
  simp [exec, hrest, hfn]

theorem exec_seq_normal {υ : Type} (h : Host υ) (n : Nat) (seek : Option Int)
    (a b : Stmt υ) (w w1 : World υ)
    (ha : exec h n seek a w = some (w1, .fin .normal)) :
    exec h (n + 1) seek (.seq a b) w = exec h n none b w1 := by
  simp [exec, ha]

theorem exec_seq_exit {υ : Type} (h : Host υ) (n : Nat) (seek : Option Int)
    (a b : Stmt υ) (w w1 : World υ) (o : Outcome) (ho : o ≠ .normal)
    (ha : exec h n seek a w = some (w1, .fin o)) :
    exec h (n + 1) seek (.seq a b) w = some (w1, .fin o) := by
  cases o <;> simp_all [exec]

theorem exec_region {υ : Type} (h : Host υ) (items : List (Item υ)) :
    ∀ (w : World υ) (k : Nat), ∃ w1 : World υ,
      exec h (k + items.length + 1) none (region items) w =
        some (w1, .fin (exitOutcome items w.user)) ∧
      w1.log = w.log ++ (ranTags items w.user).map Event.ran ++
        ((registered items w.user).reverse).map Event.ran := by
  induction items with
  | nil =>
    intro w k
    exact ⟨w, by simp [region, exec_skip, exitOutcome], by simp [ranTags, registered]⟩
  | cons it rest ih =>
    intro w k
    have hk : k + (it :: rest).length + 1 = (k + rest.length + 1) + 1 := by
      simp [List.length]; omega
    rw [hk]
    cases it with
    | defer c tag g =>
      obtain ⟨w1, he, hl⟩ := ih w k
      refine ⟨afterBlock w1 tag g, ?_, ?_⟩
      · exact exec_cleanup_fin h _ c none _ _ w w1 _ _ _ he (exec_user h _ tag g w1)
      · simp [afterBlock, hl, ranTags, registered]
    | openBlock =>
      obtain ⟨w1, he, hl⟩ := ih w k
      exact ⟨w1, by simpa [region, exec_block, exitOutcome] using he,
        by simpa [ranTags, registered] using hl⟩
    | stmt tag f =>
      by_cases hf : (f w.user).2 = Outcome.normal
      · obtain ⟨w1, he, hl⟩ := ih (afterBlock w tag f) k
        refine ⟨w1, ?_, ?_⟩
        · have hu := exec_user h (k + rest.length) tag f w
          rw [hf] at hu
          simp only [region]
          rw [exec_seq_normal h _ none _ _ w _ hu, he]
          simp [exitOutcome, hf, afterBlock]
        · simp [afterBlock] at hl
          simp [hl, ranTags, registered, hf]
      · refine ⟨afterBlock w tag f, ?_, ?_⟩
        · have hu := exec_user h (k + rest.length) tag f w
          simp only [region]
          rw [exec_seq_exit h _ none _ _ w _ _ hf hu]
          simp [exitOutcome, hf]
        · simp [afterBlock, ranTags, registered, hf]

theorem exec_run_after {υ : Type} (h : Host υ) (w : World υ) (ta tb : Nat)
    (fa fb : υ → υ × Outcome) (fuel : Nat)
    (hB : (fb w.user).2 ≠ .cont)
    (hA : (fb w.user).2 = .normal → (fa (fb w.user).1).2 ≠ .cont) :
    exec h (fuel + 8) none (run_after (.user ta fa) (.user tb fb)) w =
      if (fb w.user).2 = .normal then
        some (afterBlock (afterBlock w tb fb) ta fa, .fin (scopeExit (fa (fb w.user).1).2))
      else
        some (afterBlock w tb fb, .fin (scopeExit (fb w.user).2)) := by
  cases hb : (fb w.user).2 with
  | normal =>
    have hA1 := hA hb
    cases ha : (fa (fb w.user).1).2 <;>
      simp_all [run_after, exec, Expr.eval, afterBlock, scopeExit]
  | brk => simp [run_after, exec, Expr.eval, afterBlock, scopeExit, hb]
  | cont => exact absurd hb hB
  | ret v => simp [run_after, exec, Expr.eval, afterBlock, scopeExit, hb]

/-! ## The claims -/

/-- C1, the code as written: `yield` is `__yield_generate(__COUNTER__)`, and
the parameter of `__yield_generate` is spelled `counter`, like the member in
`stack->counter`. Argument substitution therefore replaces the member name as
well: for every counter value `c` the expansion of `yield` is
`if (stack->c = c, 0) { case c:; } else return`. No identifier `counter` is
left in it and the token after `->` is a constant, so the marker is not a
member access and records nothing in the SuspendState. -/
theorem yield_expansion_replaces_member_name (c : Nat) :
    (yield c).1 =
      [Tok.id "if", Tok.sym "(", Tok.id "stack", Tok.sym "->", Tok.num c,
       Tok.sym "=", Tok.num c, Tok.sym ",", Tok.num 0, Tok.sym ")",
       Tok.sym "\x7b", Tok.id "case", Tok.num c, Tok.sym ":", Tok.sym ";",
       Tok.sym "\x7d", Tok.id "else", Tok.id "return"] ∧
    Tok.id "counter" ∉ (yield c).1 ∧
    memberAccessOk (yield c).1 = false := by
  refine ⟨yield_tokens c, ?_, ?_⟩
  · simp [yield_tokens]
  · simp [yield_tokens, memberAccessOk]

/-- C2 as stated fails: `pthread_synchronized(&node[cur].lock) { cur++; }`,
with the lock of `node[i]` named `i` and `cur = 0`. The acquisition succeeds on
lock 0; the cleanup function evaluates the lock argument again after the body
and releases lock 1; lock 0 stays with the caller. -/
theorem lock_scope_releases_lock_named_at_exit :
    (exec (constHost Nat 0) 7 none
        (synchronized true 0 (fun cur => cur) (.user 1 increment) .skip) (freshWorld 0)).map
      (fun r => (r.1.log, r.1.held 0, r.2)) =
    some ([Event.call .pthread_mutex_lock 0 none 0, Event.ran 1,
           Event.call .pthread_mutex_unlock 1 none 0], Holder.caller, .fin .normal) := by
  decide

/-- C2, amended: for each lock scope whose acquisition function the host
declares (both back ends; blocking, try and timed, but for the timed scope of
the C11 back end), when the acquisition call returns success and the lock
argument denotes the same lock after the body as at the acquisition, execution
terminates and the log grows by exactly three entries: the acquisition call on
the lock, the run of the body, one release call on that lock. This holds for
every way the body can end (normal completion, `break`, `continue`, `return`)
and whatever follows as else branch (if any); the scope ends normally, or
returns when the body returned. -/
theorem lock_scope_body_then_single_release {υ : Type} (h : Host υ) (w : World υ)
    (usePthread : Bool) (pol : Policy) (counter : Nat) (lock : LockExpr υ) (bt : Nat)
    (f : υ → υ × Outcome) (els : Stmt υ) (fuel : Nat)
    (_hdecl : (acquireFn usePthread pol).declared = true)
    (hacq : h.result (acquireFn usePthread pol) (lock w.user) pol.time w =
      h.success (acquireFn usePthread pol))
    (hsame : lock (f w.user).1 = lock w.user) :
    ∃ (w1 : World υ) (r : Int),
      exec h (fuel + 7) none
        (withLock usePthread pol counter lock (.user bt f) els) w =
        some (w1, .fin (scopeExit (f w.user).2)) ∧
      w1.log = w.log ++
        [Event.call (acquireFn usePthread pol) (lock w.user) pol.time
           (h.success (acquireFn usePthread pol)),
         Event.ran bt,
         Event.call (releaseFn usePthread) (lock w.user) none r] ∧
      w1.user = (f w.user).1 := by
  refine ⟨(h.call (releaseFn usePthread) (lock (f w.user).1) none
      (afterBlock (h.call (acquireFn usePthread pol) (lock w.user) pol.time w).1 bt f)).1,
    h.result (releaseFn usePthread) (lock (f w.user).1) none
      (afterBlock (h.call (acquireFn usePthread pol) (lock w.user) pol.time w).1 bt f),
    ?_, ?_, ?_⟩
  · rw [exec_withLock, if_pos hacq]
  · simp [Host.call_log, afterBlock, hacq, hsame]
  · simp [Host.call_user, afterBlock]

/-- C2 at a concrete input: `pthread_synchronized (&m) { return 5; }`, written
without else, with `m` named 3 and a host whose calls succeed. -/
theorem lock_scope_body_then_single_release_witness :
    ((acquireFn true .blocking).declared = true ∧
     (constHost Unit 0).result (acquireFn true .blocking) 3 Policy.blocking.time
        (freshWorld ()) = (constHost Unit 0).success (acquireFn true .blocking) ∧
     (fun _ : Unit => (3 : Lock)) (returns5 (freshWorld ()).user).1 =
       (fun _ : Unit => (3 : Lock)) (freshWorld ()).user) ∧
    ∃ (w1 : World Unit) (r : Int),
      exec (constHost Unit 0) (0 + 7) none
        (withLock true .blocking 0 (fun _ => 3) (.user 1 returns5) .skip) (freshWorld ()) =
        some (w1, .fin (.ret 5)) ∧
      w1.log =
        [Event.call .pthread_mutex_lock 3 none 0,
         Event.ran 1,
         Event.call .pthread_mutex_unlock 3 none r] ∧
      w1.user = () :=
  ⟨⟨rfl, rfl, rfl⟩,
   lock_scope_body_then_single_release (constHost Unit 0) (freshWorld ()) true .blocking
    0 (fun _ => 3) 1 returns5 .skip 0 rfl rfl rfl⟩

/-- C3 as stated fails: `pthread_try_synchronized` on a robust mutex whose
owner died. The single `pthread_mutex_trylock` call returns `EOWNERDEAD`, which
is not `0`, so the else branch runs and no release call is made; but the call
gave the lock to the caller, so the lock, held by its dead owner before, is
held by the caller afterwards. -/
theorem try_synchronized_owner_dead_keeps_lock :
    (ownerDeadWorld ()).held 3 = Holder.other ∧
    (exec (ownerDeadHost Unit) 7 none
        (try_synchronized true 0 (fun _ => 3) (.user 1 idle) (.user 2 idle))
        (ownerDeadWorld ())).map
      (fun r => (r.1.log, r.1.held 3, r.2)) =
    some ([Event.call .pthread_mutex_trylock 3 none 130, Event.ran 2],
          Holder.caller, .fin .normal) := by
  decide

/-- C3, amended: for `try_synchronized` of either back end, when the single
trylock call returns anything but success and leaves every lock with its
holder, execution terminates, the log grows by exactly the trylock call and the
run of the else branch (no body, no release call), and every lock is held as it
was before. -/
theorem try_synchronized_failure_runs_else {υ : Type} (h : Host υ) (w : World υ)
    (usePthread : Bool) (counter : Nat) (lock : LockExpr υ) (bt et : Nat)
    (f g : υ → υ × Outcome) (fuel : Nat)
    (hfail : h.result (acquireFn usePthread .tryOnce) (lock w.user) none w ≠
      h.success (acquireFn usePthread .tryOnce))
    (hkeep : h.heldAfter (acquireFn usePthread .tryOnce) (lock w.user) none w = w.held) :
    ∃ w1 : World υ,
      exec h (fuel + 7) none
        (try_synchronized usePthread counter lock (.user bt f) (.user et g)) w =
        some (w1, .fin (g w.user).2) ∧
      w1.log = w.log ++
        [Event.call (acquireFn usePthread .tryOnce) (lock w.user) none
           (h.result (acquireFn usePthread .tryOnce) (lock w.user) none w),
         Event.ran et] ∧
      w1.held = w.held ∧
      w1.user = (g w.user).1 := by
  have hx := exec_withLock_user h w usePthread .tryOnce counter lock bt et f g fuel
  simp only [Policy.time] at hx
  rw [if_neg hfail] at hx
  refine ⟨_, hx, ?_, ?_, ?_⟩
  · simp [afterBlock, Host.call_log]
  · simpa [afterBlock, Host.call_held] using hkeep
  · simp [afterBlock, Host.call_user]

/-- C3 at a concrete input: `threads_try_synchronized` on a lock, named 3,
whose `mtx_trylock` returns 1 while `thrd_success` is 0, and which the call
leaves alone. -/
theorem try_synchronized_failure_runs_else_witness :
    ((constHost Unit 1).result (acquireFn false .tryOnce) 3 none (freshWorld ()) ≠
      (constHost Unit 1).success (acquireFn false .tryOnce) ∧
     (constHost Unit 1).heldAfter (acquireFn false .tryOnce) 3 none (freshWorld ()) =
      (freshWorld ()).held) ∧
    ∃ w1 : World Unit,
      exec (constHost Unit 1) (0 + 7) none
        (try_synchronized false 0 (fun _ => 3) (.user 1 idle) (.user 2 idle)) (freshWorld ()) =
        some (w1, .fin .normal) ∧
      w1.log = [Event.call .mtx_trylock 3 none 1, Event.ran 2] ∧
      w1.held = (freshWorld ()).held ∧
      w1.user = () :=
  ⟨⟨by decide, rfl⟩,
   try_synchronized_failure_runs_else (constHost Unit 1) (freshWorld ()) false
    0 (fun _ => 3) 1 2 idle idle 0 (by decide) rfl⟩

/-- C4 as stated fails: in `{ defer g1; { defer g2; } defer g3; }` the guards
are registered in the order g1, g2, g3, in the same and in a nested block, and
run in the order g2, g3, g1: the guard of the inner block runs when that block
is left, before g3 is registered. -/
theorem defer_inner_block_runs_first :
    (exec (constHost Unit 0) 8 none
        (.block (defer 0 (.user 1 idle)
          (.seq (.block (defer 1 (.user 2 idle) .skip))
            (defer 2 (.user 3 idle) .skip)))) (freshWorld ())).map
      (fun r => (r.1.log, r.2)) =
    some ([Event.ran 2, Event.ran 3, Event.ran 1], .fin .normal) := by
  decide

/-- C4, amended: in a region where guards are registered by `defer` in the same
block or in blocks nested one inside the other, none of them left before
control leaves the region, mixed with user statements, execution terminates
however control leaves the region (reaching the end, or a user statement ending
in `return`, `break` or `continue`), and after the user statements that ran,
the log holds the actions registered up to that point, each once, in the
reverse of their order of registration. -/
theorem defer_actions_run_once_in_reverse {υ : Type} (h : Host υ) (items : List (Item υ))
    (w : World υ) (k : Nat) :
    ∃ w1 : World υ,
      exec h (k + items.length + 2) none (.block (region items)) w =
        some (w1, .fin (exitOutcome items w.user)) ∧
      w1.log = w.log ++ (ranTags items w.user).map Event.ran ++
        ((registered items w.user).reverse).map Event.ran := by
  obtain ⟨w1, he, hl⟩ := exec_region h items w k
  exact ⟨w1, by rw [exec_block]; exact he, hl⟩

/-- C5 as stated fails: `pthread_synchronized` on a host whose
`pthread_mutex_lock` returns 22 (`EINVAL`). The call returns, the body (tag 1)
does not run, no release call is made, and the else branch (tag 2) runs. -/
theorem blocking_scope_skips_body_on_error :
    (exec (constHost Unit 22) 7 none
        (synchronized true 0 (fun _ => 3) (.user 1 idle) (.user 2 idle)) (freshWorld ())).map
      (fun r => (r.1.log, r.2)) =
    some ([Event.call .pthread_mutex_lock 3 none 22, Event.ran 2], .fin .normal) := by
  decide

/-- C5, amended: under the blocking policy of either back end, for any lock
argument, execution terminates once the acquisition call has returned, and the
body runs exactly when that call returned the success value (`0`, respectively
`thrd_success`): then the log grows by the call, the body and one release call
(on the lock the argument denotes after the body); otherwise it grows by the
call and the else branch only. -/
theorem blocking_scope_body_iff_success {υ : Type} (h : Host υ) (w : World υ)
    (usePthread : Bool) (counter : Nat) (lock : LockExpr υ) (bt et : Nat)
    (f g : υ → υ × Outcome) (fuel : Nat) :
    ∃ (w1 : World υ) (st : Status) (r : Int),
      exec h (fuel + 7) none
        (synchronized usePthread counter lock (.user bt f) (.user et g)) w = some (w1, st) ∧
      w1.log = w.log ++
        (if h.result (acquireFn usePthread .blocking) (lock w.user) none w =
            h.success (acquireFn usePthread .blocking) then
          [Event.call (acquireFn usePthread .blocking) (lock w.user) none
             (h.result (acquireFn usePthread .blocking) (lock w.user) none w),
           Event.ran bt,
           Event.call (releaseFn usePthread) (lock (f w.user).1) none r]
        else
          [Event.call (acquireFn usePthread .blocking) (lock w.user) none
             (h.result (acquireFn usePthread .blocking) (lock w.user) none w),
           Event.ran et]) := by
  have hx := exec_withLock_user h w usePthread .blocking counter lock bt et f g fuel
  simp only [Policy.time] at hx
  by_cases hr : h.result (acquireFn usePthread .blocking) (lock w.user) none w =
      h.success (acquireFn usePthread .blocking)
  · rw [if_pos hr] at hx
    exact ⟨_, _, h.result (releaseFn usePthread) (lock (f w.user).1) none
        (afterBlock (h.call (acquireFn usePthread .blocking) (lock w.user) none w).1 bt f), hx,
      by simp [Host.call_log, afterBlock, hr]⟩
  · rw [if_neg hr] at hx
    exact ⟨_, _, 0, hx, by simp [Host.call_log, afterBlock, hr]⟩

/-- C6: in every translation unit (any counter value at its start, any
constructs before the routine, any constructs between its markers), the `case`
constants of the markers of a routine are strictly increasing in textual
order, pairwise distinct, different from the entry constant `0`, and there is
one per `yield`. -/
theorem marker_identifiers_increasing_distinct_nonzero (c0 : Nat) (pre body : List Use) :
    (routineMarkers c0 pre body).Pairwise (fun a b => a < b) ∧
    (routineMarkers c0 pre body).Nodup ∧
    (∀ i ∈ routineMarkers c0 pre body, i ≠ 0) ∧
    (routineMarkers c0 pre body).length = body.count Use.yield := by
  refine ⟨markerIds_increasing _ _, ?_, ?_, markerIds_length _ _⟩
  · exact (markerIds_increasing _ body).imp (fun hab => Nat.ne_of_lt hab)
  · intro i hi
    have h1 := markerIds_ge _ body i hi
    have h2 := counterAfter_generate_pos c0 pre
    omega

/-- C7 as stated fails: with `A = { if (n++ == 0) continue; }` and a `B` that
completes normally, `run A after B` runs `B` once and `A` twice. -/
theorem run_after_reruns_continuing_block :
    (exec (constHost Nat 0) 12 none
        (run_after (.user 1 continueFirst) (.user 2 idle)) (freshWorld 0)).map
      (fun r => (r.1.log, r.1.user, r.2)) =
    some ([Event.ran 2, Event.ran 1, Event.ran 1], 2, .fin .normal) := by
  decide

/-- C7, amended: when neither block ends in `continue`, `run A after B`
terminates; if `B` completes normally the log grows by `B` then `A`, once each,
and the construct ends as `A` ends (normally, also after a `break` in `A`, or
returning); if `B` ends in `break` only `B` is logged and the construct ends
normally; if `B` ends in `return` only `B` is logged and the function
returns. -/
theorem run_after_runs_latter_then_former {υ : Type} (h : Host υ) (w : World υ)
    (ta tb : Nat) (fa fb : υ → υ × Outcome) (fuel : Nat)
    (hB : (fb w.user).2 ≠ .cont)
    (hA : (fb w.user).2 = .normal → (fa (fb w.user).1).2 ≠ .cont) :
    ∃ w1 : World υ,
      exec h (fuel + 8) none (run_after (.user ta fa) (.user tb fb)) w =
        some (w1, .fin (if (fb w.user).2 = .normal then scopeExit (fa (fb w.user).1).2
                        else scopeExit (fb w.user).2)) ∧
      w1.log = w.log ++
        (if (fb w.user).2 = .normal then [Event.ran tb, Event.ran ta] else [Event.ran tb]) ∧
      w1.user = (if (fb w.user).2 = .normal then (fa (fb w.user).1).1 else (fb w.user).1) := by
  have hx := exec_run_after h w ta tb fa fb fuel hB hA
  by_cases hb : (fb w.user).2 = .normal
  · rw [if_pos hb] at hx
    exact ⟨_, by rw [hx, if_pos hb], by simp [afterBlock, hb], by simp [afterBlock, hb]⟩
  · rw [if_neg hb] at hx
    exact ⟨_, by rw [hx, if_neg hb], by simp [afterBlock, hb], by simp [afterBlock, hb]⟩

/-- C7 at the header's own example:
`run printf("world!\n"); after printf("Hello ");` writes `Hello world!`. -/
theorem run_after_runs_latter_then_former_witness :
    ((printf "Hello " (freshWorld "").user).2 ≠ .cont ∧
     ((printf "Hello " (freshWorld "").user).2 = .normal →
       (printf "world!\n" (printf "Hello " (freshWorld "").user).1).2 ≠ .cont)) ∧
    ∃ w1 : World String,
      exec (constHost String 0) (0 + 8) none
        (run_after (.user 1 (printf "world!\n")) (.user 2 (printf "Hello "))) (freshWorld "") =
        some (w1, .fin .normal) ∧
      w1.log = [Event.ran 2, Event.ran 1] ∧
      w1.user = "Hello world!\n" :=
  ⟨⟨by simp [printf], by simp [printf]⟩,
   run_after_runs_latter_then_former (constHost String 0) (freshWorld "") 1 2
     (printf "world!\n") (printf "Hello ") 0 (by simp [printf]) (by simp [printf])⟩

/-- C8, the code as written: with the C11 back end (the default, selected when
`CEDILLA_SYNCHRONIZED_USE_PTHREAD` is not defined), `timed_synchronized` calls
the function spelled `mtx_timedock`, which `<threads.h>` does not declare; for
any lock argument the log of the scope starts with that call and holds no call
of `mtx_timedlock`. -/
theorem threads_timed_synchronized_calls_mtx_timedock {υ : Type} (h : Host υ) (w : World υ)
    (counter : Nat) (lock : LockExpr υ) (time : Nat) (bt et : Nat) (f g : υ → υ × Outcome)
    (fuel : Nat) :
    ∃ (w1 : World υ) (st : Status) (rest : List Event),
      exec h (fuel + 7) none
        (timed_synchronized false counter lock time (.user bt f) (.user et g)) w =
        some (w1, st) ∧
      w1.log = w.log ++
        Event.call .mtx_timedock (lock w.user) (some time)
          (h.result .mtx_timedock (lock w.user) (some time) w) :: rest ∧
      (∀ (l1 : Lock) (t1 : Option Nat) (r : Int), Event.call .mtx_timedlock l1 t1 r ∉ rest) ∧
      Prim.mtx_timedock.declared = false ∧
      Prim.mtx_timedlock.declared = true := by
  have hx := exec_withLock_user h w false (.timed time) counter lock bt et f g fuel
  simp only [Policy.time, acquireFn, releaseFn, Bool.false_eq_true, if_false] at hx
  by_cases hr : h.result .mtx_timedock (lock w.user) (some time) w = h.success .mtx_timedock
  · rw [if_pos hr] at hx
    refine ⟨_, _, [Event.ran bt, Event.call .mtx_unlock (lock (f w.user).1) none
      (h.result .mtx_unlock (lock (f w.user).1) none
        (afterBlock (h.call .mtx_timedock (lock w.user) (some time) w).1 bt f))],
      hx, ?_, ?_, rfl, rfl⟩
    · simp [Host.call_log, afterBlock, hr]
    · intro l1 t1 r
      simp
  · rw [if_neg hr] at hx
    refine ⟨_, _, [Event.ran et], hx, ?_, ?_, rfl, rfl⟩
    · simp [Host.call_log, afterBlock]
    · intro l1 t1 r
      simp

/-- C9, the code as written: in the expansion of a marker the only assignment
has the constant `c` as its target (`stack->c = c`), and the expansion of
`generate` holds no assignment; so no text produced by yield.h stores a marker
identifier in `stack->counter`, whose only occurrence is the dispatch read in
`generate`. -/
theorem expansions_never_store_to_counter_member (c : Nat) :
    assignTargets (yield c).1 = [Tok.num c] ∧
    assignTargets (generate c).1 = [] ∧
    (generate c).1.count (Tok.id "counter") = 1 ∧
    (yield c).1.count (Tok.id "counter") = 0 := by
  refine ⟨?_, ?_, ?_, ?_⟩
  · simp [yield_tokens, assignTargets]
  · simp [generate, COUNTER, assignTargets]
  · simp [generate, COUNTER]
  · simp [yield_tokens]

/-- C10, the code as written: with 64-bit parts, `x = 16777217 = 2^24 + 1` and
`y = 0` are representable, yet `twovalue_bind(TWOVALUE(x, y), &out)` evaluates
to `16777216` and so does `twovalue_use(TWOVALUE(x, y))`: the sum is formed in
`float`, which has 24 significant bits. -/
theorem twovalue_loses_low_bits :
    representable 64 16777217 ∧ representable 64 0 ∧
    twovalue_bind 64 (TWOVALUE 16777217 0) = some (16777216, 0) ∧
    twovalue_use (TWOVALUE 16777217 0) = 16777216 := by
  refine ⟨?_, ?_, ?_, ?_⟩
  · unfold representable; decide
  · unfold representable; decide
  · decide
  · decide

end Cedilla
